import Mathlib

/-!
Verification development for the event-store and projection core
(`internal/eventstore/repository/sql/crdb.go`, the execution and session
projections, and the query layer).  Go code is shallowly embedded:
SQL tables become lists, the transaction of `crdb.ExecuteTx` becomes
state passing that discards the working state on error, and machine
integers become `Nat` (sequences are small positive counters; overflow
is unreachable in the modelled range).
-/

namespace Zitadel

/-! ### Event store data model (crdb.go)

One row of `eventstore.events` as written by `crdbInsert`.  The generated
`id` column and the hlc timestamp are not modelled (no claim mentions them);
`creationDate` stands for `statement_timestamp()`, supplied by the caller of
the insert as an abstract clock value.  `resource_owner` and `instance_id`
are modelled as `String` because every insert passes plain Go strings for
`$8`/`$9` (never SQL NULL). -/

structure EventRow where
  eventType : String
  aggregateType : String
  aggregateID : String
  aggregateVersion : String
  creationDate : Nat
  eventData : Option String
  editorUser : String
  editorService : String
  resourceOwner : String
  instanceID : String
  eventSequence : Nat
  previousAggregateSequence : Option Nat
  previousAggregateTypeSequence : Option Nat
  deriving DecidableEq, Repr

/-- The parameters `$1 .. $9` of the `crdbInsert` statement. -/
structure InsertParams where
  eventType : String
  aggregateType : String
  aggregateID : String
  aggregateVersion : String
  eventData : Option String
  editorUser : String
  editorService : String
  resourceOwner : String
  instanceID : String
  deriving DecidableEq, Repr

/-- WHERE clause of the `agg_type` subquery of `crdbInsert`:
`aggregate_type = $2 AND instance_id = $9`. -/
def aggTypeFilter (aggregateType instanceID : String) (r : EventRow) : Bool :=
  r.aggregateType == aggregateType && r.instanceID == instanceID

/-- WHERE clause of the `agg` subquery of `crdbInsert`:
`aggregate_type = $2 AND aggregate_id = $3 AND instance_id = $9`. -/
def aggFilter (aggregateType aggregateID instanceID : String) (r : EventRow) : Bool :=
  r.aggregateType == aggregateType && r.aggregateID == aggregateID &&
    r.instanceID == instanceID

/-- Fold computing `ORDER BY event_sequence DESC LIMIT 1`: the (first) row of
maximal `event_sequence`. -/
def pickLatest : Option EventRow → List EventRow → Option EventRow
  | acc, [] => acc
  | acc, r :: rs =>
    pickLatest
      (match acc with
       | none => some r
       | some b => if b.eventSequence < r.eventSequence then some r else some b) rs

/-- `SELECT event_sequence, resource_owner ... ORDER BY event_sequence DESC LIMIT 1`
over the rows satisfying `p`. -/
def latestRow (store : List EventRow) (p : EventRow → Bool) : Option EventRow :=
  pickLatest none (store.filter p)

/-- `SELECT MAX(event_sequence)` over the rows satisfying `p` (`none` = SQL NULL
on an empty selection). -/
def maxSequence (store : List EventRow) (p : EventRow → Bool) : Option Nat :=
  match store.filter p with
  | [] => none
  | l => some ((l.map (·.eventSequence)).foldr max 0)

/-- `MAX(event_sequence)` read as a `Nat` (0 for an empty selection), used to
state the `COALESCE(aggregate_sequence, 0) + 1` arithmetic of `crdbInsert`. -/
def maxSeqNat (store : List EventRow) (p : EventRow → Bool) : Nat :=
  ((store.filter p).map (·.eventSequence)).foldr max 0

/-- The `crdbInsert` statement (crdb.go lines 32-84): buffer the latest data of
the aggregate (`previous_data`), then insert one event whose
`event_sequence` is `COALESCE(aggregate_sequence, 0) + 1`, whose
`resource_owner` is `COALESCE(resource_owner, $8)` and which records the
previous per-aggregate and per-aggregate-type sequences.  Returns the
inserted row together with the new table (new row in front). -/
def crdbInsert (now : Nat) (store : List EventRow) (p : InsertParams) :
    EventRow × List EventRow :=
  let aggTypeSeq := maxSequence store (aggTypeFilter p.aggregateType p.instanceID)
  let agg := latestRow store (aggFilter p.aggregateType p.aggregateID p.instanceID)
  let row : EventRow :=
    { eventType := p.eventType
      aggregateType := p.aggregateType
      aggregateID := p.aggregateID
      aggregateVersion := p.aggregateVersion
      creationDate := now
      eventData := p.eventData
      editorUser := p.editorUser
      editorService := p.editorService
      resourceOwner :=
        match agg with
        | some prev => prev.resourceOwner
        | none => p.resourceOwner
      instanceID := p.instanceID
      eventSequence := (match agg with | some prev => prev.eventSequence | none => 0) + 1
      previousAggregateSequence := agg.map (·.eventSequence)
      previousAggregateTypeSequence := aggTypeSeq }
  (row, row :: store)

/-! ### Errors (internal/errors CaosError kinds, pq/pgx errors) -/

inductive ZErrorKind
  | invalidArgument
  | alreadyExists
  | internal
  | notFound
  deriving DecidableEq, Repr

structure ZError where
  kind : ZErrorKind
  message : String
  deriving DecidableEq, Repr

/-- A database driver error carrying the SQLSTATE code (`pq.Error` /
`pgconn.PgError`). -/
structure PgError where
  code : String
  deriving DecidableEq, Repr

/-- `isUniqueViolationError` (crdb.go lines 402-414): both the pq and the pgx
branch test for SQLSTATE 23505. -/
def isUniqueViolationError (e : PgError) : Bool :=
  e.code == "23505"

/-! ### Unique constraints (crdb.go lines 86-101, 220-259) -/

inductive UCAction
  | add
  | remove
  | instanceRemove
  deriving DecidableEq, Repr

/-- `eventstore.UniqueConstraint` as used by `handleUniqueConstraints`. -/
structure UniqueConstraint where
  uniqueType : String
  uniqueField : String
  errorMessage : String
  action : UCAction
  deriving DecidableEq, Repr

/-- One row of `eventstore.unique_constraints`:
`(unique_type, unique_field, instance_id)`. -/
structure UCEntry where
  uniqueType : String
  uniqueField : String
  instanceID : String
  deriving DecidableEq, Repr

/-- `strings.ToLower` (ASCII case mapping, the range exercised by the store). -/
def strToLower (s : String) : String := ⟨s.data.map Char.toLower⟩

/-- Abstract SQL transaction handle: the statements `Push` and
`handleUniqueConstraints` execute through `tx`.  Each operation receives the
current table contents and either fails with a driver error or returns the
new contents.  `crdbTx` below is the concrete database semantics; keeping the
handle abstract mirrors the Go functions, which receive an opaque `*sql.Tx`. -/
structure SqlTx where
  insertEvent : Nat → List EventRow → InsertParams → Except PgError (EventRow × List EventRow)
  insertUC : List UCEntry → UCEntry → Except PgError (List UCEntry)
  deleteUC : List UCEntry → UCEntry → Except PgError (List UCEntry)
  deleteInstanceUC : List UCEntry → String → Except PgError (List UCEntry)

/-- The `uniqueInsert` statement: the storage-level uniqueness index on
`(unique_type, unique_field, instance_id)` makes a duplicate insert fail
with SQLSTATE 23505. -/
def uniqueInsertExec (tbl : List UCEntry) (e : UCEntry) : Except PgError (List UCEntry) :=
  if e ∈ tbl then .error ⟨"23505"⟩ else .ok (e :: tbl)

/-- The `uniqueDelete` statement: delete the matching row (zero rows affected
is not an error). -/
def uniqueDeleteExec (tbl : List UCEntry) (e : UCEntry) : Except PgError (List UCEntry) :=
  .ok (tbl.filter (fun x => decide (x ≠ e)))

/-- The `uniqueDeleteInstance` statement: delete every row of the instance. -/
def uniqueDeleteInstanceExec (tbl : List UCEntry) (inst : String) :
    Except PgError (List UCEntry) :=
  .ok (tbl.filter (fun x => decide (x.instanceID ≠ inst)))

/-- The concrete CockroachDB transaction semantics. -/
def crdbTx : SqlTx where
  insertEvent := fun now store p => .ok (crdbInsert now store p)
  insertUC := uniqueInsertExec
  deleteUC := uniqueDeleteExec
  deleteInstanceUC := uniqueDeleteInstanceExec

/-- A transaction on which every statement fails with the given SQLSTATE code
(a storage fault other than a duplicate key when `code ≠ "23505"`). -/
def failTx (code : String) : SqlTx where
  insertEvent := fun _ _ _ => .error ⟨code⟩
  insertUC := fun _ _ => .error ⟨code⟩
  deleteUC := fun _ _ => .error ⟨code⟩
  deleteInstanceUC := fun _ _ => .error ⟨code⟩

/-- `handleUniqueConstraints` (crdb.go lines 220-259): for each constraint the
field is first lowercased, then the action decides the statement.  An `Add`
whose insert fails is translated to AlreadyExists with the caller-supplied
message when the error is a uniqueness violation, and to Internal otherwise;
failing deletes are translated to Internal.  (The Go guard for a single nil
pointer in the slice has no counterpart: the embedding has no nil.) -/
def handleUniqueConstraints (tx : SqlTx) (ctxInstanceID : String) :
    List UCEntry → List UniqueConstraint → Except ZError (List UCEntry)
  | tbl, [] => .ok tbl
  | tbl, uc :: rest =>
    let field := strToLower uc.uniqueField
    match uc.action with
    | .add =>
      match tx.insertUC tbl ⟨uc.uniqueType, field, ctxInstanceID⟩ with
      | .error e =>
        if isUniqueViolationError e then
          .error ⟨.alreadyExists, uc.errorMessage⟩
        else
          .error ⟨.internal, "unable to create unique constraint"⟩
      | .ok tbl' => handleUniqueConstraints tx ctxInstanceID tbl' rest
    | .remove =>
      match tx.deleteUC tbl ⟨uc.uniqueType, field, ctxInstanceID⟩ with
      | .error _ => .error ⟨.internal, "unable to remove unique constraint"⟩
      | .ok tbl' => handleUniqueConstraints tx ctxInstanceID tbl' rest
    | .instanceRemove =>
      match tx.deleteInstanceUC tbl ctxInstanceID with
      | .error _ => .error ⟨.internal, "unable to remove unique constraints of instance"⟩
      | .ok tbl' => handleUniqueConstraints tx ctxInstanceID tbl' rest

/-! ### Push (crdb.go lines 116-193) -/

/-- `eventstore.Command` as consumed by `Push`: aggregate key, event type,
payload and declared unique-constraint side effects.  A command carries no
sequence number (none exists on the interface). -/
structure Command where
  eventType : String
  aggregateType : String
  aggregateID : String
  version : String
  resourceOwner : String
  instanceID : String
  creator : String
  payload : Option String
  uniqueConstraints : List UniqueConstraint
  deriving DecidableEq, Repr

/-- Lines 129-131: the command's instance ID, resolved from the context when
unset. -/
def commandInstanceID (ctxInstanceID : String) (c : Command) : String :=
  if c.instanceID = "" then ctxInstanceID else c.instanceID

/-- The arguments `$1 .. $9` passed to `crdbInsert` for one command
(lines 152-161; `$7` is the literal string `zitadel`). -/
def commandParams (ctxInstanceID : String) (c : Command) : InsertParams :=
  { eventType := c.eventType
    aggregateType := c.aggregateType
    aggregateID := c.aggregateID
    aggregateVersion := c.version
    eventData := c.payload
    editorUser := c.creator
    editorService := "zitadel"
    resourceOwner := c.resourceOwner
    instanceID := commandInstanceID ctxInstanceID c }

/-- The `for i, command := range commands` loop of `Push` (lines 128-180):
insert one event per command in submission order, collect the produced
events and the declared unique constraints.  A failing insert aborts with
an Internal error (line 175). -/
def pushLoop (tx : SqlTx) (ctxInstanceID : String) (now : Nat) :
    List EventRow → List Command →
    Except ZError (List EventRow × List UniqueConstraint × List EventRow)
  | store, [] => .ok ([], [], store)
  | store, c :: rest =>
    match tx.insertEvent now store (commandParams ctxInstanceID c) with
    | .error _ => .error ⟨.internal, "unable to create event"⟩
    | .ok res =>
      match pushLoop tx ctxInstanceID now res.2 rest with
      | .error e => .error e
      | .ok res2 => .ok (res.1 :: res2.1, c.uniqueConstraints ++ res2.2.1, res2.2.2)

/-- The full state the transaction touches: the event table and the
unique-constraint table. -/
structure StoreState where
  events : List EventRow
  uniqueConstraints : List UCEntry
  deriving DecidableEq, Repr

/-- The closure passed to `crdb.ExecuteTx` (lines 119-187): run the command
loop, then apply the collected unique constraints. -/
def pushBody (tx : SqlTx) (ctxInstanceID : String) (now : Nat) (st : StoreState)
    (commands : List Command) : Except ZError (StoreState × List EventRow) :=
  match pushLoop tx ctxInstanceID now st.events commands with
  | .error e => .error e
  | .ok res =>
    match handleUniqueConstraints tx ctxInstanceID st.uniqueConstraints res.2.1 with
    | .error e => .error e
    | .ok tbl' => .ok (⟨res.2.2, tbl'⟩, res.1)

/-- `Push` (lines 116-193): the body runs inside one transaction; on any error
`crdb.ExecuteTx` rolls the transaction back, so the observable state is the
initial one.  (The wrapping of non-CaosError errors at line 188 is the
identity here: every error of the body is already a `ZError`.) -/
def Push (tx : SqlTx) (ctxInstanceID : String) (now : Nat) (st : StoreState)
    (commands : List Command) : Except ZError (List EventRow) × StoreState :=
  match pushBody tx ctxInstanceID now st commands with
  | .ok res => (.ok res.2, res.1)
  | .error e => (.error e, st)

/-! ### Filter ordering (crdb.go lines 262-270, 293-299)

`orderByEventSequence` emits
`ORDER BY crdb_internal_mvcc_timestamp [DESC], event_sequence [DESC]`.
The clause is embedded as the list of (column, direction) pairs it denotes,
and `sqlOrderLE` gives the SQL lexicographic comparison those pairs define. -/

inductive OrderCol
  | mvccTimestamp
  | eventSequence
  deriving DecidableEq, Repr

inductive OrderDir
  | asc
  | desc
  deriving DecidableEq, Repr

/-- The ORDER BY clause of `orderByEventSequence (desc)`: the
transaction-commit timestamp column first, `event_sequence` second, both
descending when `desc` and both ascending otherwise. -/
def orderByEventSequence (desc : Bool) : List (OrderCol × OrderDir) :=
  if desc then [(.mvccTimestamp, .desc), (.eventSequence, .desc)]
  else [(.mvccTimestamp, .asc), (.eventSequence, .asc)]

/-- An event row as seen by the ORDER BY clause: its commit (mvcc) timestamp
and its sequence. -/
structure StoredEvent where
  mvccTimestamp : Nat
  eventSequence : Nat
  deriving DecidableEq, Repr

def colVal : OrderCol → StoredEvent → Nat
  | .mvccTimestamp, r => r.mvccTimestamp
  | .eventSequence, r => r.eventSequence

/-- SQL semantics of an ORDER BY clause list: `a` sorts no later than `b`. -/
def sqlOrderLE : List (OrderCol × OrderDir) → StoredEvent → StoredEvent → Bool
  | [], _, _ => true
  | (c, d) :: rest, a, b =>
    if colVal c a = colVal c b then sqlOrderLE rest a b
    else
      match d with
      | .asc => decide (colVal c a < colVal c b)
      | .desc => decide (colVal c b < colVal c a)

/-- Commit order: transaction-commit timestamp first, then sequence. -/
def commitBefore (a b : StoredEvent) : Prop :=
  a.mvccTimestamp < b.mvccTimestamp ∨
    (a.mvccTimestamp = b.mvccTimestamp ∧ a.eventSequence ≤ b.eventSequence)

/-- Modelled from the spec: the search query builder (not under `src/`) sets
the ordering flag of the repository query; replay reads ask for ascending
order, "latest first" reads for descending, so the `desc` parameter handed
to `orderByEventSequence` is the negation of the replay flag. -/
def replayDesc (replay : Bool) : Bool := !replay

/-! ### Read-model queries (internal/query/execution.go, internal/query/org.go)

Rows of `projections.executions` and of the org projection, and the WHERE
clauses the query functions build with squirrel.  SQL row selection is
modelled as `List.filter`; `extra` stands for the caller-supplied search
queries (`queries.toQuery`). -/

structure ExecutionRow where
  id : String
  creationDate : Nat
  changeDate : Nat
  resourceOwner : String
  instanceID : String
  sequence : Nat
  targets : List String
  includes : List String
  deriving DecidableEq, Repr

structure OrgRow where
  id : String
  creationDate : Nat
  changeDate : Nat
  resourceOwner : String
  instanceID : String
  state : Nat
  sequence : Nat
  name : String
  domain : String
  deriving DecidableEq, Repr

/-- `SearchExecutions` (execution.go lines 86-91): the caller queries are
conjoined with `instance_id = authz.GetInstance(ctx).InstanceID()`. -/
def SearchExecutions (ctxInstanceID : String) (extra : ExecutionRow → Bool)
    (db : List ExecutionRow) : List ExecutionRow :=
  db.filter (fun r => extra r && (r.instanceID == ctxInstanceID))

/-- `GetExecutionByID` (execution.go lines 93-100): the WHERE clause is
`id = id AND resource_owner = resourceOwner AND instance_id = resourceOwner`
— the `instance_id` column is compared against the `resourceOwner`
argument, not against the context instance (the `ctxInstanceID` parameter
is carried but unused, like `ctx` in the Go filter map).  No row maps to
NotFound (`sql.ErrNoRows`). -/
def GetExecutionByID (ctxInstanceID : String) (id resourceOwner : String)
    (db : List ExecutionRow) : Except ZError ExecutionRow :=
  match db.filter (fun r =>
      r.id == id && r.resourceOwner == resourceOwner &&
        r.instanceID == resourceOwner) with
  | [] => .error ⟨.notFound, "Errors.Execution.NotFound"⟩
  | r :: _ => .ok r

/-- `SearchOrgs` (org.go lines 195-218): the caller queries are conjoined with
`instance_id = authz.GetInstance(ctx).InstanceID()`. -/
def SearchOrgs (ctxInstanceID : String) (extra : OrgRow → Bool)
    (db : List OrgRow) : List OrgRow :=
  db.filter (fun r => extra r && (r.instanceID == ctxInstanceID))

/-! ### Projections (execution projection, session projection)

The concrete runtime event types the reducers type-assert on.  `ProjEvent`
is the open `eventstore.Event` interface value handed to a reducer; a Go
type assertion `event.(*T)` becomes a constructor match. -/

structure ExecSetEvent where
  instanceID : String
  resourceOwner : String
  aggregateID : String
  creationDate : Nat
  sequence : Nat
  targets : List String
  includes : List String
  deriving DecidableEq, Repr

structure SessionAddedEvent where
  aggregateID : String
  instanceID : String
  resourceOwner : String
  creationDate : Nat
  sequence : Nat
  user : String
  deriving DecidableEq, Repr

structure HumanPasswordChangedEvent where
  aggregateID : String
  creationDate : Nat
  deriving DecidableEq, Repr

inductive ProjEvent
  | execSet (e : ExecSetEvent)
  | sessionAdded (e : SessionAddedEvent)
  | passwordChanged (e : HumanPasswordChangedEvent)
  | otherEvent (eventType : String)
  deriving DecidableEq, Repr

/-- Column values of projection tables. -/
inductive ColValue
  | text (s : String)
  | timestamp (t : Nat)
  | num (n : Nat)
  | textArray (l : List String)
  | null
  deriving DecidableEq, Repr

/-- `handler.Column`: a named value, optionally flagged
`handler.OnlySetValueOnInsert`. -/
structure Col where
  name : String
  value : ColValue
  onlyOnInsert : Bool
  deriving DecidableEq, Repr

/-- `handler.NewCol`. -/
def NewCol (n : String) (v : ColValue) : Col := ⟨n, v, false⟩

/-- `handler.NewCol` with the value wrapped in `handler.OnlySetValueOnInsert`. -/
def NewColOnlySetOnInsert (n : String) (v : ColValue) : Col := ⟨n, v, true⟩

/-- `handler.Condition`: `handler.NewCond` (equality) and
`handler.NewLessThanCond`. -/
inductive Condition
  | isEq (name : String) (v : ColValue)
  | isLt (name : String) (v : ColValue)
  deriving DecidableEq, Repr

/-- `handler.Statement` kinds produced by the embedded reducers. -/
inductive Statement
  | create (cols : List Col)
  | upsert (pk : List Col) (cols : List Col)
  | update (cols : List Col) (conds : List Condition)
  | delete (conds : List Condition)
  deriving DecidableEq, Repr

/-- Column name constants of the execution projection (part_001). -/
def ExecutionIDCol : String := "id"
def ExecutionCreationDateCol : String := "creation_date"
def ExecutionChangeDateCol : String := "change_date"
def ExecutionResourceOwnerCol : String := "resource_owner"
def ExecutionInstanceIDCol : String := "instance_id"
def ExecutionSequenceCol : String := "sequence"
def ExecutionTargetsCol : String := "targets"
def ExecutionIncludesCol : String := "includes"

/-- Column name constants of the session projection (part_002). -/
def SessionColumnID : String := "id"
def SessionColumnCreationDate : String := "creation_date"
def SessionColumnChangeDate : String := "change_date"
def SessionColumnSequence : String := "sequence"
def SessionColumnState : String := "state"
def SessionColumnResourceOwner : String := "resource_owner"
def SessionColumnInstanceID : String := "instance_id"
def SessionColumnCreator : String := "creator"
def SessionColumnUserID : String := "user_id"
def SessionColumnPasswordCheckedAt : String := "password_checked_at"

/-- The `columns` slice of `executionProjection.reduceExecutionSet`
(part_001 lines 85-94): `creation_date` is flagged set-only-on-insert. -/
def execSetColumns (e : ExecSetEvent) : List Col :=
  [NewCol ExecutionInstanceIDCol (.text e.instanceID),
   NewCol ExecutionResourceOwnerCol (.text e.resourceOwner),
   NewCol ExecutionIDCol (.text e.aggregateID),
   NewColOnlySetOnInsert ExecutionCreationDateCol (.timestamp e.creationDate),
   NewCol ExecutionChangeDateCol (.timestamp e.creationDate),
   NewCol ExecutionSequenceCol (.num e.sequence),
   NewCol ExecutionTargetsCol (.textArray e.targets),
   NewCol ExecutionIncludesCol (.textArray e.includes)]

/-- `executionProjection.reduceExecutionSet` (part_001 lines 80-96): a wrong
runtime event type yields an InvalidArgument error, otherwise
`NewUpsertStatement(e, columns[0:3], columns)`. -/
def reduceExecutionSet : ProjEvent → Except ZError Statement
  | .execSet e => .ok (.upsert ((execSetColumns e).take 3) (execSetColumns e))
  | _ => .error ⟨.invalidArgument, "reduce.wrong.event.type% s execution.v2.set"⟩

/-- `sessionProjection.reduceSessionAdded` (part_002 lines 138-157). -/
def reduceSessionAdded : ProjEvent → Except ZError Statement
  | .sessionAdded e =>
    .ok (.create
      [NewCol SessionColumnID (.text e.aggregateID),
       NewCol SessionColumnInstanceID (.text e.instanceID),
       NewCol SessionColumnCreationDate (.timestamp e.creationDate),
       NewCol SessionColumnChangeDate (.timestamp e.creationDate),
       NewCol SessionColumnResourceOwner (.text e.resourceOwner),
       NewCol SessionColumnState (.num 1),
       NewCol SessionColumnSequence (.num e.sequence),
       NewCol SessionColumnCreator (.text e.user)])
  | _ => .error ⟨.invalidArgument, "reduce.wrong.event.type session.added"⟩

/-- The column list of `reducePasswordChanged`: `password_checked_at := NULL`. -/
def pwChangedCols : List Col :=
  [NewCol SessionColumnPasswordCheckedAt .null]

/-- The condition list of `reducePasswordChanged`:
`user_id = e.Aggregate().ID AND password_checked_at < e.CreationDate()`. -/
def pwChangedConds (e : HumanPasswordChangedEvent) : List Condition :=
  [Condition.isEq SessionColumnUserID (.text e.aggregateID),
   Condition.isLt SessionColumnPasswordCheckedAt (.timestamp e.creationDate)]

/-- `sessionProjection.reducePasswordChanged` (part_002 lines 314-330): set
`password_checked_at` to NULL on the rows whose `user_id` is the event's
aggregate ID and whose `password_checked_at` is less than the event's
creation date. -/
def reducePasswordChanged : ProjEvent → Except ZError Statement
  | .passwordChanged e => .ok (.update pwChangedCols (pwChangedConds e))
  | _ => .error ⟨.invalidArgument, "reduce.wrong.event.type user.human.password.changed"⟩

/-! ### Statement application

Modelled from the spec: the statement executor of the projection handler
(`internal/eventstore/handler/v2`, not under `src/`) applies a statement to
its projection table; *Upsert* inserts or updates by primary key and skips
the set-only-on-insert columns on the update path, *Update* updates the rows
matching all conditions, *Create* inserts, *Delete* removes the matching
rows.  A table is a list of rows, a row a list of (column, value) pairs. -/

abbrev Row := List (String × ColValue)
abbrev Table := List Row

/-- Value of a column in a row (first match, like a SQL row). -/
def lookupCol (r : Row) (n : String) : Option ColValue :=
  List.lookup n r

/-- Whether the row has a column of the given name. -/
def nameIn (n : String) (r : Row) : Bool :=
  r.any (fun p => n == p.1)

/-- Write one column of a row. -/
def setCol (r : Row) (c : Col) : Row :=
  if nameIn c.name r then
    r.map (fun p => if c.name == p.1 then (p.1, c.value) else p)
  else r ++ [(c.name, c.value)]

/-- Write a list of columns, left to right. -/
def applyCols (cols : List Col) (r : Row) : Row :=
  cols.foldl setCol r

/-- The update path of a statement: set-only-on-insert columns are skipped. -/
def updateRow (cols : List Col) (r : Row) : Row :=
  applyCols (cols.filter (fun c => !c.onlyOnInsert)) r

/-- The insert path of a statement: the row built from every column. -/
def insertRowOf (cols : List Col) : Row :=
  cols.map (fun c => (c.name, c.value))

/-- Whether a row matches every primary-key column. -/
def rowMatches (pk : List Col) (r : Row) : Bool :=
  pk.all (fun c => decide (lookupCol r c.name = some c.value))

/-- SQL truth of a condition on a row: a NULL or absent or non-comparable
operand makes a less-than comparison false. -/
def condHolds (r : Row) : Condition → Bool
  | .isEq n v => decide (lookupCol r n = some v)
  | .isLt n v =>
    match lookupCol r n, v with
    | some (.timestamp a), .timestamp b => decide (a < b)
    | some (.num a), .num b => decide (a < b)
    | _, _ => false

def applyUpsert (pk cols : List Col) (t : Table) : Table :=
  if t.any (rowMatches pk) then
    t.map (fun r => if rowMatches pk r then updateRow cols r else r)
  else t ++ [insertRowOf cols]

def applyUpdate (cols : List Col) (conds : List Condition) (t : Table) : Table :=
  t.map (fun r => if conds.all (condHolds r) then updateRow cols r else r)

def applyCreate (cols : List Col) (t : Table) : Table :=
  t ++ [insertRowOf cols]

def applyDelete (conds : List Condition) (t : Table) : Table :=
  t.filter (fun r => !conds.all (condHolds r))

def applyStatement : Statement → Table → Table
  | .create cols, t => applyCreate cols t
  | .upsert pk cols, t => applyUpsert pk cols t
  | .update cols conds, t => applyUpdate cols conds t
  | .delete conds, t => applyDelete conds t

/-- Values of every column of the given name in a row (to state that a column
is untouched even on rows with duplicate column names). -/
def getVals (n : String) (r : Row) : List ColValue :=
  (r.filter (fun p => n == p.1)).map (·.2)

/-- The per-row effect of the statement produced by `reducePasswordChanged`
(the function `applyUpdate` maps over the session table). -/
def pwChangedRow (e : HumanPasswordChangedEvent) (r : Row) : Row :=
  if (pwChangedConds e).all (condHolds r) then updateRow pwChangedCols r else r

/-! ### Specification-side definitions

The shapes of the properties to be proved about the embedding. -/

/-- The sequences stored for one aggregate instance, in table order (the
event table lists the newest row first). -/
def seqsOf (store : List EventRow) (t a i : String) : List Nat :=
  (store.filter (aggFilter t a i)).map (·.eventSequence)

/-- `countdown n = [n, n-1, ..., 1]`. -/
def countdown : Nat → List Nat
  | 0 => []
  | n + 1 => (n + 1) :: countdown n

/-- Every aggregate instance holds exactly the sequences `1 .. n`, newest
first: strictly increasing from 1 with no gaps and no duplicates. -/
def GapFree (store : List EventRow) : Prop :=
  ∀ t a i, seqsOf store t a i = countdown (seqsOf store t a i).length

/-! ### Concrete sample data for the witness theorems -/

def cmdA : Command :=
  { eventType := "org.added", aggregateType := "org", aggregateID := "o1"
    version := "v1", resourceOwner := "o1", instanceID := "i1"
    creator := "alice", payload := some "d1", uniqueConstraints := [] }

def cmdB : Command :=
  { cmdA with eventType := "org.changed", payload := none }

def ucBob : UniqueConstraint :=
  { uniqueType := "usernames", uniqueField := "Bob"
    errorMessage := "Errors.User.AlreadyExists", action := .add }

def cmdDup : Command :=
  { cmdA with uniqueConstraints := [ucBob] }

/-- A store whose unique-constraint table already holds `usernames/bob/i1`. -/
def st0 : StoreState :=
  ⟨[], [⟨"usernames", "bob", "i1"⟩]⟩

/-- An already-stored event of aggregate `org/o1` owned by `ownerX`. -/
def evRow0 : EventRow :=
  { eventType := "org.added", aggregateType := "org", aggregateID := "o1"
    aggregateVersion := "v1", creationDate := 1, eventData := none
    editorUser := "alice", editorService := "zitadel", resourceOwner := "ownerX"
    instanceID := "i1", eventSequence := 1
    previousAggregateSequence := none, previousAggregateTypeSequence := none }

def execEvt0 : ExecSetEvent :=
  ⟨"i1", "o1", "exec1", 10, 3, ["target1"], []⟩

def sessAdded0 : SessionAddedEvent :=
  ⟨"s1", "i1", "o1", 4, 1, "u1"⟩

def pwEvt0 : HumanPasswordChangedEvent :=
  ⟨"u1", 5⟩

/-- A session row checked with the old password at time 3 (before 5). -/
def sessRow0 : Row :=
  [("id", .text "s1"), ("user_id", .text "u1"), ("password_checked_at", .timestamp 3)]

/-! ## Lemmas on the latest-row selection of `crdbInsert` -/

theorem pickLatest_spec (l : List EventRow) :
    ∀ (acc : Option EventRow) (r : EventRow),
      pickLatest acc l = some r →
      (acc = some r ∨ r ∈ l) ∧
      (∀ x ∈ l, x.eventSequence ≤ r.eventSequence) ∧
      (∀ b, acc = some b → b.eventSequence ≤ r.eventSequence) := by
  induction l with
  | nil =>
    intro acc r h
    rw [pickLatest] at h
    refine ⟨Or.inl h, by simp, ?_⟩
    intro b hb
    rw [h] at hb
    cases hb
    exact Nat.le_refl _
  | cons a l ih =>
    intro acc r h
    cases acc with
    | none =>
      simp only [pickLatest] at h
      obtain ⟨hm, hall, hacc⟩ := ih (some a) r h
      refine ⟨Or.inr ?_, ?_, ?_⟩
      · rcases hm with h1 | h1
        · cases Option.some.inj h1
          exact List.mem_cons_self a l
        · exact List.mem_cons_of_mem a h1
      · intro x hx
        rcases List.mem_cons.mp hx with rfl | hx
        · exact hacc x rfl
        · exact hall x hx
      · intro b hb
        exact absurd hb (by simp)
    | some b =>
      simp only [pickLatest] at h
      by_cases hba : b.eventSequence < a.eventSequence
      · rw [if_pos hba] at h
        obtain ⟨hm, hall, hacc⟩ := ih (some a) r h
        refine ⟨Or.inr ?_, ?_, ?_⟩
        · rcases hm with h1 | h1
          · cases Option.some.inj h1
            exact List.mem_cons_self a l
          · exact List.mem_cons_of_mem a h1
        · intro x hx
          rcases List.mem_cons.mp hx with rfl | hx
          · exact hacc x rfl
          · exact hall x hx
        · intro b' hb'
          cases Option.some.inj hb'
          exact Nat.le_trans (Nat.le_of_lt hba) (hacc a rfl)
      · rw [if_neg hba] at h
        obtain ⟨hm, hall, hacc⟩ := ih (some b) r h
        refine ⟨?_, ?_, ?_⟩
        · rcases hm with h1 | h1
          · exact Or.inl h1
          · exact Or.inr (List.mem_cons_of_mem a h1)
        · intro x hx
          rcases List.mem_cons.mp hx with rfl | hx
          · exact Nat.le_trans (Nat.le_of_not_lt hba) (hacc b rfl)
          · exact hall x hx
        · intro b' hb'
          cases Option.some.inj hb'
          exact hacc b rfl

theorem pickLatest_some_isSome (l : List EventRow) :
    ∀ b, (pickLatest (some b) l).isSome := by
  induction l with
  | nil => intro b; rfl
  | cons a l ih =>
    intro b
    simp only [pickLatest]
    by_cases h : b.eventSequence < a.eventSequence
    · rw [if_pos h]; exact ih a
    · rw [if_neg h]; exact ih b

theorem latestRow_none_iff (store : List EventRow) (p : EventRow → Bool) :
    latestRow store p = none ↔ store.filter p = [] := by
  unfold latestRow
  constructor
  · intro h
    cases hl : store.filter p with
    | nil => rfl
    | cons a l =>
      rw [hl] at h
      simp only [pickLatest] at h
      have := pickLatest_some_isSome l a
      rw [h] at this
      cases this
  · intro h
    rw [h]
    rfl

theorem latestRow_isMax (store : List EventRow) (p : EventRow → Bool) (r : EventRow)
    (h : latestRow store p = some r) :
    r ∈ store.filter p ∧ ∀ x ∈ store.filter p, x.eventSequence ≤ r.eventSequence := by
  unfold latestRow at h
  obtain ⟨hm, hall, -⟩ := pickLatest_spec _ _ _ h
  rcases hm with h1 | h1
  · exact absurd h1 (by simp)
  · exact ⟨h1, hall⟩

theorem le_foldr_max (l : List Nat) (x : Nat) (h : x ∈ l) : x ≤ l.foldr max 0 := by
  induction l with
  | nil => cases h
  | cons a l ih =>
    rcases List.mem_cons.mp h with rfl | h
    · exact le_max_left _ _
    · exact Nat.le_trans (ih h) (le_max_right _ _)

theorem foldr_max_le (l : List Nat) (a : Nat) (h : ∀ x ∈ l, x ≤ a) :
    l.foldr max 0 ≤ a := by
  induction l with
  | nil => exact Nat.zero_le a
  | cons b l ih =>
    simp only [List.foldr]
    exact max_le (h b (List.mem_cons_self b l))
      (ih fun x hx => h x (List.mem_cons_of_mem b hx))

theorem latestRow_seq (store : List EventRow) (p : EventRow → Bool) (r : EventRow)
    (h : latestRow store p = some r) :
    r.eventSequence = maxSeqNat store p := by
  obtain ⟨hmem, hmax⟩ := latestRow_isMax store p r h
  refine Nat.le_antisymm (le_foldr_max _ _ (List.mem_map_of_mem _ hmem)) ?_
  apply foldr_max_le
  intro x hx
  obtain ⟨y, hy, rfl⟩ := List.mem_map.mp hx
  exact hmax y hy

/-! ## Projections of the row built by `crdbInsert` -/

theorem crdbInsert_row_eventSequence (now : Nat) (store : List EventRow) (p : InsertParams) :
    (crdbInsert now store p).1.eventSequence =
      (match latestRow store (aggFilter p.aggregateType p.aggregateID p.instanceID) with
       | some prev => prev.eventSequence
       | none => 0) + 1 := rfl

theorem crdbInsert_row_resourceOwner (now : Nat) (store : List EventRow) (p : InsertParams) :
    (crdbInsert now store p).1.resourceOwner =
      (match latestRow store (aggFilter p.aggregateType p.aggregateID p.instanceID) with
       | some prev => prev.resourceOwner
       | none => p.resourceOwner) := rfl

theorem crdbInsert_snd (now : Nat) (store : List EventRow) (p : InsertParams) :
    (crdbInsert now store p).2 = (crdbInsert now store p).1 :: store := rfl

theorem crdbInsert_row_aggregateType (now : Nat) (store : List EventRow) (p : InsertParams) :
    (crdbInsert now store p).1.aggregateType = p.aggregateType := rfl

theorem crdbInsert_row_aggregateID (now : Nat) (store : List EventRow) (p : InsertParams) :
    (crdbInsert now store p).1.aggregateID = p.aggregateID := rfl

theorem crdbInsert_row_instanceID (now : Nat) (store : List EventRow) (p : InsertParams) :
    (crdbInsert now store p).1.instanceID = p.instanceID := rfl

/-- C8: the resource owner persisted by `crdbInsert` is inherited from the
latest existing event of the same aggregate instance (the row of maximal
sequence among the rows matching the aggregate key) when one exists, and is
the command-declared resource owner exactly when the aggregate instance has
no prior event. -/
theorem crdbInsert_resourceOwner_inherited (now : Nat) (store : List EventRow)
    (p : InsertParams) :
    (∀ prev,
      latestRow store (aggFilter p.aggregateType p.aggregateID p.instanceID) = some prev →
        prev ∈ store ∧
        aggFilter p.aggregateType p.aggregateID p.instanceID prev = true ∧
        (∀ r ∈ store, aggFilter p.aggregateType p.aggregateID p.instanceID r = true →
          r.eventSequence ≤ prev.eventSequence) ∧
        (crdbInsert now store p).1.resourceOwner = prev.resourceOwner) ∧
    (latestRow store (aggFilter p.aggregateType p.aggregateID p.instanceID) = none →
        (∀ r ∈ store, aggFilter p.aggregateType p.aggregateID p.instanceID r = false) ∧
        (crdbInsert now store p).1.resourceOwner = p.resourceOwner) := by
  constructor
  · intro prev h
    obtain ⟨hmem, hmax⟩ := latestRow_isMax _ _ _ h
    obtain ⟨hmem', hp⟩ := List.mem_filter.mp hmem
    refine ⟨hmem', hp, ?_, ?_⟩
    · intro r hr hf
      exact hmax r (List.mem_filter.mpr ⟨hr, hf⟩)
    · rw [crdbInsert_row_resourceOwner, h]
  · intro h
    have h0 : store.filter (aggFilter p.aggregateType p.aggregateID p.instanceID) = [] :=
      (latestRow_none_iff _ _).mp h
    constructor
    · intro r hr
      rcases Bool.eq_false_or_eq_true
          (aggFilter p.aggregateType p.aggregateID p.instanceID r) with hb | hb
      · exact absurd (List.mem_filter.mpr ⟨hr, hb⟩) (by simp [h0])
      · exact hb
    · rw [crdbInsert_row_resourceOwner, h]

/-- Witness for C8: with a prior `org/o1` event owned by `ownerX` the new
event inherits `ownerX` although the command declares `o1`; on an empty
store the command-declared owner `o1` is used. -/
theorem crdbInsert_resourceOwner_inherited_witness :
    (crdbInsert 7 [evRow0] (commandParams "i1" cmdB)).1.resourceOwner = "ownerX" ∧
    (crdbInsert 7 [] (commandParams "i1" cmdB)).1.resourceOwner = "o1" := by
  constructor
  · exact ((crdbInsert_resourceOwner_inherited 7 [evRow0]
      (commandParams "i1" cmdB)).1 evRow0 (by decide)).2.2.2.trans (by decide)
  · exact ((crdbInsert_resourceOwner_inherited 7 []
      (commandParams "i1" cmdB)).2 (by decide)).2.trans (by decide)

/-! ## Gap-free sequence assignment (C1) -/

theorem crdbInsert_seq_eq (now : Nat) (store : List EventRow) (p : InsertParams) :
    (crdbInsert now store p).1.eventSequence =
      maxSeqNat store (aggFilter p.aggregateType p.aggregateID p.instanceID) + 1 := by
  rw [crdbInsert_row_eventSequence]
  cases h : latestRow store (aggFilter p.aggregateType p.aggregateID p.instanceID) with
  | none =>
    have h0 := (latestRow_none_iff _ _).mp h
    simp [maxSeqNat, h0]
  | some prev =>
    show prev.eventSequence + 1 =
      maxSeqNat store (aggFilter p.aggregateType p.aggregateID p.instanceID) + 1
    rw [latestRow_seq store _ prev h]

theorem countdown_length (n : Nat) : (countdown n).length = n := by
  induction n with
  | zero => rfl
  | succ n ih => simp [countdown, ih]

theorem foldr_max_countdown (n : Nat) : (countdown n).foldr max 0 = n := by
  induction n with
  | zero => rfl
  | succ n ih =>
    simp only [countdown, List.foldr]
    rw [ih]
    exact max_eq_left (Nat.le_succ n)

theorem maxSeqNat_seqsOf (store : List EventRow) (t a i : String) :
    maxSeqNat store (aggFilter t a i) = (seqsOf store t a i).foldr max 0 := rfl

theorem crdbInsert_gapFree (now : Nat) (store : List EventRow) (p : InsertParams)
    (h : GapFree store) : GapFree (crdbInsert now store p).2 := by
  intro t a i
  rw [crdbInsert_snd]
  by_cases hf : aggFilter t a i (crdbInsert now store p).1 = true
  · have hcomp : (p.aggregateType = t ∧ p.aggregateID = a) ∧ p.instanceID = i := by
      simpa [aggFilter, crdbInsert_row_aggregateType, crdbInsert_row_aggregateID,
        crdbInsert_row_instanceID] using hf
    obtain ⟨⟨h1, h2⟩, h3⟩ := hcomp
    subst h1
    subst h2
    subst h3
    obtain ⟨n, hn⟩ : ∃ n, seqsOf store p.aggregateType p.aggregateID p.instanceID =
        countdown n := ⟨_, h p.aggregateType p.aggregateID p.instanceID⟩
    have hseq : seqsOf ((crdbInsert now store p).1 :: store)
        p.aggregateType p.aggregateID p.instanceID =
        (crdbInsert now store p).1.eventSequence ::
          seqsOf store p.aggregateType p.aggregateID p.instanceID := by
      simp [seqsOf, List.filter_cons, hf]
    have hrseq : (crdbInsert now store p).1.eventSequence = n + 1 := by
      rw [crdbInsert_seq_eq, maxSeqNat_seqsOf, hn, foldr_max_countdown]
    rw [hseq, hrseq, hn, List.length_cons, countdown_length]
    rfl
  · have hf' : aggFilter t a i (crdbInsert now store p).1 = false := by
      rcases Bool.eq_false_or_eq_true (aggFilter t a i (crdbInsert now store p).1) with hb | hb
      · exact absurd hb hf
      · exact hb
    have hseq : seqsOf ((crdbInsert now store p).1 :: store) t a i = seqsOf store t a i := by
      simp [seqsOf, List.filter_cons, hf']
    rw [hseq]
    exact h t a i

theorem crdbTx_insertEvent (now : Nat) (store : List EventRow) (p : InsertParams) :
    crdbTx.insertEvent now store p = .ok (crdbInsert now store p) := rfl

theorem pushLoop_gapFree (ctx : String) (now : Nat) :
    ∀ (cs : List Command) (store : List EventRow)
      (res : List EventRow × List UniqueConstraint × List EventRow),
      pushLoop crdbTx ctx now store cs = .ok res →
      GapFree store → GapFree res.2.2 := by
  intro cs
  induction cs with
  | nil =>
    intro store res h hg
    simp only [pushLoop] at h
    cases Except.ok.inj h
    exact hg
  | cons c cs ih =>
    intro store res h hg
    simp only [pushLoop, crdbTx_insertEvent] at h
    cases hp : pushLoop crdbTx ctx now (crdbInsert now store (commandParams ctx c)).2 cs with
    | error e =>
      rw [hp] at h
      exact Except.noConfusion h
    | ok res2 =>
      rw [hp] at h
      cases Except.ok.inj h
      exact ih (crdbInsert now store (commandParams ctx c)).2 res2 hp
        (crdbInsert_gapFree now store (commandParams ctx c) hg)

/-- Inversion of a successful `pushBody`: the loop and the constraint
handling both succeeded, and the result is assembled from their outputs. -/
theorem pushBody_ok_inversion (tx : SqlTx) (ctx : String) (now : Nat) (st : StoreState)
    (cs : List Command) (res : StoreState × List EventRow)
    (h : pushBody tx ctx now st cs = .ok res) :
    ∃ res0 tbl, pushLoop tx ctx now st.events cs = .ok res0 ∧
      handleUniqueConstraints tx ctx st.uniqueConstraints res0.2.1 = .ok tbl ∧
      res = (⟨res0.2.2, tbl⟩, res0.1) := by
  unfold pushBody at h
  cases hp : pushLoop tx ctx now st.events cs with
  | error e =>
    rw [hp] at h
    exact Except.noConfusion h
  | ok res0 =>
    rw [hp] at h
    have h' : (match handleUniqueConstraints tx ctx st.uniqueConstraints res0.2.1 with
        | Except.error e => (Except.error e : Except ZError (StoreState × List EventRow))
        | Except.ok tbl' => Except.ok (⟨res0.2.2, tbl'⟩, res0.1)) = Except.ok res := h
    cases hu : handleUniqueConstraints tx ctx st.uniqueConstraints res0.2.1 with
    | error e =>
      rw [hu] at h'
      exact Except.noConfusion h'
    | ok tbl =>
      rw [hu] at h'
      exact ⟨res0, tbl, rfl, hu, (Except.ok.inj h').symm⟩

/-- The state returned by `Push` is the input state (rollback) or the state of
a successful body (commit). -/
theorem Push_snd_cases (tx : SqlTx) (ctx : String) (now : Nat) (st : StoreState)
    (cs : List Command) :
    (Push tx ctx now st cs).2 = st ∨
    ∃ res, pushBody tx ctx now st cs = .ok res ∧ (Push tx ctx now st cs).2 = res.1 := by
  unfold Push
  cases hb : pushBody tx ctx now st cs with
  | error e => exact Or.inl rfl
  | ok res => exact Or.inr ⟨res, rfl, rfl⟩

theorem push_gapFree (ctx : String) (now : Nat) (st : StoreState) (cs : List Command)
    (hg : GapFree st.events) : GapFree (Push crdbTx ctx now st cs).2.events := by
  rcases Push_snd_cases crdbTx ctx now st cs with h | ⟨res, hok, h⟩
  · rw [h]
    exact hg
  · rw [h]
    obtain ⟨res0, tbl, hp, -, hres⟩ := pushBody_ok_inversion crdbTx ctx now st cs res hok
    rw [hres]
    exact pushLoop_gapFree ctx now cs st.events res0 hp hg

/-- C1: `crdbInsert` assigns each event the previous maximum sequence of its
aggregate instance plus one (so 1 when no prior event exists: the maximum of
the empty selection is 0), and a `Push` through the concrete transaction
semantics keeps every aggregate instance's sequences exactly `n, ..., 1`,
newest first — strictly increasing from 1 with no gaps.  The `Command`
structure carries no sequence field, so the caller cannot supply one. -/
theorem push_assigns_contiguous_sequences :
    (∀ (now : Nat) (store : List EventRow) (p : InsertParams),
        (crdbInsert now store p).1.eventSequence =
          maxSeqNat store (aggFilter p.aggregateType p.aggregateID p.instanceID) + 1) ∧
    (∀ (ctx : String) (now : Nat) (st : StoreState) (cs : List Command),
        GapFree st.events → GapFree (Push crdbTx ctx now st cs).2.events) :=
  ⟨crdbInsert_seq_eq, push_gapFree⟩

/-- Witness for C1: pushing two commands for the same aggregate on the empty
store yields sequences 2 and 1 (newest first) and a gap-free store. -/
theorem push_assigns_contiguous_sequences_witness :
    GapFree (Push crdbTx "i1" 7 ⟨[], []⟩ [cmdA, cmdB]).2.events ∧
    (Push crdbTx "i1" 7 ⟨[], []⟩ [cmdA, cmdB]).2.events.map (·.eventSequence) = [2, 1] := by
  constructor
  · exact push_assigns_contiguous_sequences.2 "i1" 7 ⟨[], []⟩ [cmdA, cmdB]
      (fun t a i => rfl)
  · decide

/-! ## Transactionality of Push (C2) -/

/-- C2: when `Push` returns an error — whatever transaction semantics made an
event insert or a constraint application fail — the returned state is the
initial one: no event and no constraint change of the batch is observable. -/
theorem push_error_rolls_back (tx : SqlTx) (ctx : String) (now : Nat) (st : StoreState)
    (cs : List Command) (e : ZError)
    (h : (Push tx ctx now st cs).1 = .error e) :
    (Push tx ctx now st cs).2 = st := by
  unfold Push at h ⊢
  cases hb : pushBody tx ctx now st cs with
  | ok res =>
    rw [hb] at h
    exact Except.noConfusion h
  | error e' => rfl

/-- Witness for C2: a batch whose second command re-adds an existing unique
constraint fails with AlreadyExists after both events were inserted in the
transaction, and the store is left exactly as before the call. -/
theorem push_error_rolls_back_witness :
    (Push crdbTx "i1" 7 st0 [cmdA, cmdDup]).1 =
      .error ⟨.alreadyExists, "Errors.User.AlreadyExists"⟩ ∧
    (Push crdbTx "i1" 7 st0 [cmdA, cmdDup]).2 = st0 := by
  constructor
  · rfl
  · exact push_error_rolls_back crdbTx "i1" 7 st0 [cmdA, cmdDup]
      ⟨.alreadyExists, "Errors.User.AlreadyExists"⟩ rfl

/-! ## Unique-constraint semantics (C3) -/

theorem crdbTx_insertUC (tbl : List UCEntry) (e : UCEntry) :
    crdbTx.insertUC tbl e = uniqueInsertExec tbl e := rfl

/-- C3: an `Add` constraint is stored with the lowercased field; against the
concrete storage semantics a duplicate key yields an AlreadyExists error
carrying the constraint's own error message, and against any transaction
whose insert fails, the error is AlreadyExists with that message exactly
when the failure is a uniqueness violation (SQLSTATE 23505) and Internal
for every other storage failure. -/
theorem uniqueConstraint_add_semantics :
    (∀ (ctx : String) (tbl : List UCEntry) (uc : UniqueConstraint), uc.action = .add →
      handleUniqueConstraints crdbTx ctx tbl [uc] =
        if (⟨uc.uniqueType, strToLower uc.uniqueField, ctx⟩ : UCEntry) ∈ tbl then
          .error ⟨.alreadyExists, uc.errorMessage⟩
        else .ok ((⟨uc.uniqueType, strToLower uc.uniqueField, ctx⟩ : UCEntry) :: tbl)) ∧
    (∀ (tx : SqlTx) (ctx : String) (tbl : List UCEntry) (uc : UniqueConstraint)
        (pe : PgError), uc.action = .add →
      tx.insertUC tbl ⟨uc.uniqueType, strToLower uc.uniqueField, ctx⟩ = .error pe →
      handleUniqueConstraints tx ctx tbl [uc] =
        .error (if isUniqueViolationError pe then ⟨.alreadyExists, uc.errorMessage⟩
                else ⟨.internal, "unable to create unique constraint"⟩)) := by
  constructor
  · intro ctx tbl uc ha
    by_cases hmem : (⟨uc.uniqueType, strToLower uc.uniqueField, ctx⟩ : UCEntry) ∈ tbl
    · simp [handleUniqueConstraints, ha, crdbTx_insertUC, uniqueInsertExec, hmem,
        isUniqueViolationError]
    · simp [handleUniqueConstraints, ha, crdbTx_insertUC, uniqueInsertExec, hmem]
  · intro tx ctx tbl uc pe ha hf
    simp only [handleUniqueConstraints, ha, hf]
    by_cases hv : isUniqueViolationError pe = true
    · simp [hv]
    · simp [hv]

/-- Witness for C3: the field `Bob` is stored lowercased as `bob`; re-adding
it yields AlreadyExists with the caller's message; a non-23505 storage
failure (SQLSTATE 57014) yields an Internal error. -/
theorem uniqueConstraint_add_semantics_witness :
    handleUniqueConstraints crdbTx "i1" [⟨"usernames", "bob", "i1"⟩] [ucBob] =
      .error ⟨.alreadyExists, "Errors.User.AlreadyExists"⟩ ∧
    handleUniqueConstraints crdbTx "i1" [] [ucBob] =
      .ok [⟨"usernames", "bob", "i1"⟩] ∧
    handleUniqueConstraints (failTx "57014") "i1" [] [ucBob] =
      .error ⟨.internal, "unable to create unique constraint"⟩ := by
  refine ⟨?_, ?_, ?_⟩
  · exact (uniqueConstraint_add_semantics.1 "i1" [⟨"usernames", "bob", "i1"⟩]
      ucBob rfl).trans rfl
  · exact (uniqueConstraint_add_semantics.1 "i1" [] ucBob rfl).trans rfl
  · exact (uniqueConstraint_add_semantics.2 (failTx "57014") "i1" [] ucBob
      ⟨"57014"⟩ rfl rfl).trans rfl

/-! ## Push output corresponds to the command batch (C9) -/

theorem pushLoop_matches (ctx : String) (now : Nat) :
    ∀ (cs : List Command) (store : List EventRow)
      (res : List EventRow × List UniqueConstraint × List EventRow),
      pushLoop crdbTx ctx now store cs = .ok res →
      res.1.map (fun r => (r.eventType, r.aggregateType, r.aggregateID,
          r.eventData, r.instanceID)) =
        cs.map (fun c => (c.eventType, c.aggregateType, c.aggregateID, c.payload,
          commandInstanceID ctx c)) := by
  intro cs
  induction cs with
  | nil =>
    intro store res h
    simp only [pushLoop] at h
    cases Except.ok.inj h
    rfl
  | cons c cs ih =>
    intro store res h
    simp only [pushLoop, crdbTx_insertEvent] at h
    cases hp : pushLoop crdbTx ctx now (crdbInsert now store (commandParams ctx c)).2 cs with
    | error e =>
      rw [hp] at h
      exact Except.noConfusion h
    | ok res2 =>
      rw [hp] at h
      cases Except.ok.inj h
      rw [List.map_cons, List.map_cons,
        ih (crdbInsert now store (commandParams ctx c)).2 res2 hp]
      rfl

/-- C9: a successful `Push` returns exactly one event per command, in
submission order, and the event at each position carries the corresponding
command's event type, aggregate key, payload and resolved instance ID. -/
theorem push_returns_event_per_command (ctx : String) (now : Nat) (st : StoreState)
    (cs : List Command) (evs : List EventRow) (st' : StoreState)
    (h : Push crdbTx ctx now st cs = (.ok evs, st')) :
    evs.length = cs.length ∧
    evs.map (fun r => (r.eventType, r.aggregateType, r.aggregateID,
        r.eventData, r.instanceID)) =
      cs.map (fun c => (c.eventType, c.aggregateType, c.aggregateID, c.payload,
        commandInstanceID ctx c)) := by
  unfold Push at h
  cases hb : pushBody crdbTx ctx now st cs with
  | error e =>
    rw [hb] at h
    exact Except.noConfusion (congrArg Prod.fst h)
  | ok res =>
    rw [hb] at h
    have h1 : res.2 = evs := Except.ok.inj (congrArg Prod.fst h)
    obtain ⟨res0, tbl, hp, -, hres⟩ := pushBody_ok_inversion crdbTx ctx now st cs res hb
    have h2 : evs = res0.1 := by
      rw [← h1, hres]
    have hm := pushLoop_matches ctx now cs st.events res0 hp
    rw [h2]
    refine ⟨?_, hm⟩
    have hlen := congrArg List.length hm
    simpa using hlen

/-- Witness for C9: pushing `cmdA, cmdB` returns two events matching the two
commands in order. -/
theorem push_returns_event_per_command_witness :
    ((Push crdbTx "i1" 7 ⟨[], []⟩ [cmdA, cmdB]).1.toOption.getD []).length = 2 ∧
    ((Push crdbTx "i1" 7 ⟨[], []⟩ [cmdA, cmdB]).1.toOption.getD []).map
        (fun r => (r.eventType, r.aggregateType, r.aggregateID,
          r.eventData, r.instanceID)) =
      [cmdA, cmdB].map (fun c => (c.eventType, c.aggregateType, c.aggregateID,
        c.payload, commandInstanceID "i1" c)) := by
  have h := push_returns_event_per_command "i1" 7 ⟨[], []⟩ [cmdA, cmdB]
    ((Push crdbTx "i1" 7 ⟨[], []⟩ [cmdA, cmdB]).1.toOption.getD [])
    (Push crdbTx "i1" 7 ⟨[], []⟩ [cmdA, cmdB]).2 rfl
  exact ⟨h.1, h.2⟩

/-! ## Instance scoping of read-model queries (C4) -/

/-- C4 (violated by the code): `SearchExecutions` and `SearchOrgs` do
restrict every returned row to the calling context's instance, but
`GetExecutionByID` compares `instance_id` against its `resourceOwner`
argument instead of the context instance: with context instance `i1` and
`resourceOwner = i2` it returns a row whose `instance_id` is `i2 ≠ i1`,
so a row of a foreign instance can appear in the result. -/
theorem getExecutionByID_ignores_context_instance :
    (∀ (ctx : String) (extra : ExecutionRow → Bool) (db : List ExecutionRow),
      (SearchExecutions ctx extra db).all (fun r => r.instanceID == ctx) = true) ∧
    (∀ (ctx : String) (extra : OrgRow → Bool) (db : List OrgRow),
      (SearchOrgs ctx extra db).all (fun r => r.instanceID == ctx) = true) ∧
    (GetExecutionByID "i1" "exec1" "i2"
        [⟨"exec1", 0, 0, "i2", "i2", 1, [], []⟩] =
      .ok ⟨"exec1", 0, 0, "i2", "i2", 1, [], []⟩ ∧
      (⟨"exec1", 0, 0, "i2", "i2", 1, [], []⟩ : ExecutionRow).instanceID ≠ "i1") := by
  refine ⟨?_, ?_, rfl, by decide⟩
  · intro ctx extra db
    rw [List.all_eq_true]
    intro r hr
    have := (List.mem_filter.mp hr).2
    simp only [Bool.and_eq_true] at this
    exact this.2
  · intro ctx extra db
    rw [List.all_eq_true]
    intro r hr
    have := (List.mem_filter.mp hr).2
    simp only [Bool.and_eq_true] at this
    exact this.2

/-! ## Filter ordering (C5) -/

theorem sqlOrderLE_asc (a b : StoredEvent) :
    sqlOrderLE [(OrderCol.mvccTimestamp, OrderDir.asc),
      (OrderCol.eventSequence, OrderDir.asc)] a b = true ↔ commitBefore a b := by
  simp only [sqlOrderLE, colVal, commitBefore]
  by_cases h1 : a.mvccTimestamp = b.mvccTimestamp
  · rw [if_pos h1]
    by_cases h2 : a.eventSequence = b.eventSequence
    · rw [if_pos h2]
      constructor
      · intro _
        omega
      · intro _
        rfl
    · rw [if_neg h2, decide_eq_true_eq]
      omega
  · rw [if_neg h1, decide_eq_true_eq]
    omega

theorem sqlOrderLE_desc (a b : StoredEvent) :
    sqlOrderLE [(OrderCol.mvccTimestamp, OrderDir.desc),
      (OrderCol.eventSequence, OrderDir.desc)] a b = true ↔ commitBefore b a := by
  simp only [sqlOrderLE, colVal, commitBefore]
  by_cases h1 : a.mvccTimestamp = b.mvccTimestamp
  · rw [if_pos h1]
    by_cases h2 : a.eventSequence = b.eventSequence
    · rw [if_pos h2]
      constructor
      · intro _
        omega
      · intro _
        rfl
    · rw [if_neg h2, decide_eq_true_eq]
      omega
  · rw [if_neg h1, decide_eq_true_eq]
    omega

/-- C5: the ordering `orderByEventSequence` denotes is exactly commit order —
transaction-commit timestamp first, then sequence — ascending when the
replay flag is set and descending otherwise; and it is not ordering by
sequence alone: a row with a larger sequence but a smaller commit timestamp
sorts first in ascending order. -/
theorem filter_orders_by_commit_order :
    (∀ (replay : Bool) (a b : StoredEvent),
      sqlOrderLE (orderByEventSequence (replayDesc replay)) a b = true ↔
        (if replay then commitBefore a b else commitBefore b a)) ∧
    (sqlOrderLE (orderByEventSequence (replayDesc true))
        ⟨3, 10⟩ ⟨5, 1⟩ = true ∧ (10 : Nat) > 1) := by
  constructor
  · intro replay a b
    cases replay with
    | false =>
      show sqlOrderLE [(OrderCol.mvccTimestamp, OrderDir.desc),
        (OrderCol.eventSequence, OrderDir.desc)] a b = true ↔ commitBefore b a
      exact sqlOrderLE_desc a b
    | true =>
      show sqlOrderLE [(OrderCol.mvccTimestamp, OrderDir.asc),
        (OrderCol.eventSequence, OrderDir.asc)] a b = true ↔ commitBefore a b
      exact sqlOrderLE_asc a b
  · exact ⟨by decide, by decide⟩

/-! ## Reducers reject events of the wrong runtime type (C7) -/

/-- C7: each embedded reducer, given an event that is not of the concrete
runtime type it expects, returns no statement but an error of the
InvalidArgument kind. -/
theorem reducers_reject_wrong_event_type :
    (∀ ev : ProjEvent, (∀ e, ev ≠ .execSet e) →
      ∃ msg, reduceExecutionSet ev = .error ⟨.invalidArgument, msg⟩) ∧
    (∀ ev : ProjEvent, (∀ e, ev ≠ .sessionAdded e) →
      ∃ msg, reduceSessionAdded ev = .error ⟨.invalidArgument, msg⟩) ∧
    (∀ ev : ProjEvent, (∀ e, ev ≠ .passwordChanged e) →
      ∃ msg, reducePasswordChanged ev = .error ⟨.invalidArgument, msg⟩) := by
  refine ⟨?_, ?_, ?_⟩
  · intro ev h
    cases ev with
    | execSet e => exact absurd rfl (h e)
    | sessionAdded e => exact ⟨_, rfl⟩
    | passwordChanged e => exact ⟨_, rfl⟩
    | otherEvent s => exact ⟨_, rfl⟩
  · intro ev h
    cases ev with
    | execSet e => exact ⟨_, rfl⟩
    | sessionAdded e => exact absurd rfl (h e)
    | passwordChanged e => exact ⟨_, rfl⟩
    | otherEvent s => exact ⟨_, rfl⟩
  · intro ev h
    cases ev with
    | execSet e => exact ⟨_, rfl⟩
    | sessionAdded e => exact ⟨_, rfl⟩
    | passwordChanged e => exact absurd rfl (h e)
    | otherEvent s => exact ⟨_, rfl⟩

/-- Witness for C7: concrete wrong-typed events produce InvalidArgument. -/
theorem reducers_reject_wrong_event_type_witness :
    (∃ msg, reduceExecutionSet (.sessionAdded sessAdded0) =
      .error ⟨.invalidArgument, msg⟩) ∧
    (∃ msg, reduceSessionAdded (.execSet execEvt0) =
      .error ⟨.invalidArgument, msg⟩) ∧
    (∃ msg, reducePasswordChanged (.otherEvent "org.added") =
      .error ⟨.invalidArgument, msg⟩) := by
  refine ⟨reducers_reject_wrong_event_type.1 _ ?_,
    reducers_reject_wrong_event_type.2.1 _ ?_,
    reducers_reject_wrong_event_type.2.2 _ ?_⟩ <;>
    exact fun e h => ProjEvent.noConfusion h

/-! ## Lemmas on the row/statement executor (C6, C10) -/

theorem lookup_map_set (m : String) (v : ColValue) :
    ∀ r : Row, nameIn m r = true →
      List.lookup m (r.map (fun p => if m == p.1 then (p.1, v) else p)) = some v := by
  intro r
  induction r with
  | nil => intro h; simp [nameIn] at h
  | cons p r ih =>
    obtain ⟨pk, pv⟩ := p
    intro h
    simp only [List.map_cons]
    cases hp : (m == pk) with
    | true =>
      rw [if_pos rfl]
      simp only [List.lookup, hp]
    | false =>
      have h' : nameIn m r = true := by simpa [nameIn, hp] using h
      rw [if_neg (by simp)]
      simp only [List.lookup, hp]
      exact ih h'

theorem lookup_map_set_ne (m : String) (v : ColValue) (n : String)
    (h : (n == m) = false) :
    ∀ r : Row, List.lookup n (r.map (fun p => if m == p.1 then (p.1, v) else p)) =
      List.lookup n r := by
  intro r
  induction r with
  | nil => rfl
  | cons p r ih =>
    obtain ⟨pk, pv⟩ := p
    simp only [List.map_cons]
    cases hp : (m == pk) with
    | true =>
      have hm : m = pk := by simpa using hp
      have hn : (n == pk) = false := by rw [← hm]; exact h
      rw [if_pos rfl]
      simp only [List.lookup, hn]
      exact ih
    | false =>
      rw [if_neg (by simp)]
      cases hn : (n == pk) with
      | true => simp only [List.lookup, hn]
      | false =>
        simp only [List.lookup, hn]
        exact ih

theorem lookup_eq_none_of_nameIn_false (n : String) :
    ∀ r : Row, nameIn n r = false → List.lookup n r = none := by
  intro r
  induction r with
  | nil => intro h; rfl
  | cons p r ih =>
    obtain ⟨pk, pv⟩ := p
    intro h
    cases hp : (n == pk) with
    | true => simp [nameIn, hp] at h
    | false =>
      have h' : nameIn n r = false := by simpa [nameIn, hp] using h
      simp [List.lookup, hp, ih h']

theorem lookup_append_row (n : String) :
    ∀ (r tail : Row), List.lookup n (r ++ tail) =
      match List.lookup n r with
      | some v => some v
      | none => List.lookup n tail := by
  intro r
  induction r with
  | nil => intro tail; rfl
  | cons p r ih =>
    obtain ⟨pk, pv⟩ := p
    intro tail
    cases hp : (n == pk) with
    | true => simp [List.lookup, hp]
    | false => simp [List.lookup, hp, ih]

theorem filterMap_set (n m : String) (v : ColValue) (h : (n == m) = false) :
    ∀ r : Row,
      (r.map (fun p => if m == p.1 then (p.1, v) else p)).filter (fun p => n == p.1) =
        r.filter (fun p => n == p.1) := by
  intro r
  induction r with
  | nil => rfl
  | cons p r ih =>
    obtain ⟨pk, pv⟩ := p
    simp only [List.map_cons]
    cases hp : (m == pk) with
    | true =>
      have hm : m = pk := by simpa using hp
      have hn : (n == pk) = false := by rw [← hm]; exact h
      rw [if_pos rfl]
      simp only [List.filter_cons, hn]
      rw [if_neg (by simp), if_neg (by simp)]
      exact ih
    | false =>
      rw [if_neg (by simp)]
      cases hn : (n == pk) with
      | true =>
        simp only [List.filter_cons, hn]
        rw [if_pos trivial, if_pos trivial, ih]
      | false =>
        simp only [List.filter_cons, hn]
        rw [if_neg (by simp), if_neg (by simp)]
        exact ih

theorem nameIn_map_set (m : String) (v : ColValue) (n : String) :
    ∀ r : Row,
      nameIn n (r.map (fun p => if m == p.1 then (p.1, v) else p)) = nameIn n r := by
  intro r
  induction r with
  | nil => rfl
  | cons p r ih =>
    obtain ⟨pk, pv⟩ := p
    simp only [List.map_cons]
    cases hp : (m == pk) with
    | true =>
      rw [if_pos rfl]
      simp only [nameIn, List.any_cons] at ih ⊢
      rw [ih]
    | false =>
      rw [if_neg (by simp)]
      simp only [nameIn, List.any_cons] at ih ⊢
      rw [ih]

theorem map_set_id_of_not_in (m : String) (v : ColValue) :
    ∀ r : Row, nameIn m r = false →
      r.map (fun p => if m == p.1 then (p.1, v) else p) = r := by
  intro r
  induction r with
  | nil => intro h; rfl
  | cons p r ih =>
    obtain ⟨pk, pv⟩ := p
    intro h
    simp only [List.map_cons]
    cases hp : (m == pk) with
    | true => simp [nameIn, hp] at h
    | false =>
      have h' : nameIn m r = false := by simpa [nameIn, hp] using h
      rw [if_neg (by simp), ih h']

theorem lookupCol_setCol_self (r : Row) (c : Col) :
    lookupCol (setCol r c) c.name = some c.value := by
  unfold setCol lookupCol
  by_cases hin : nameIn c.name r = true
  · rw [if_pos hin]
    exact lookup_map_set c.name c.value r hin
  · have hin' : nameIn c.name r = false := by
      rcases Bool.eq_false_or_eq_true (nameIn c.name r) with hb | hb
      · exact absurd hb hin
      · exact hb
    rw [if_neg (by simp [hin']), lookup_append_row,
      lookup_eq_none_of_nameIn_false c.name r hin']
    simp [List.lookup]

theorem lookupCol_setCol_ne (r : Row) (c : Col) (n : String)
    (h : (n == c.name) = false) :
    lookupCol (setCol r c) n = lookupCol r n := by
  unfold setCol lookupCol
  by_cases hin : nameIn c.name r = true
  · rw [if_pos hin]
    exact lookup_map_set_ne c.name c.value n h r
  · rw [if_neg hin, lookup_append_row]
    cases hl : List.lookup n r with
    | some v => rfl
    | none => simp [List.lookup, h]

theorem getVals_setCol_ne (r : Row) (c : Col) (n : String)
    (h : (n == c.name) = false) :
    getVals n (setCol r c) = getVals n r := by
  unfold setCol getVals
  by_cases hin : nameIn c.name r = true
  · rw [if_pos hin, filterMap_set n c.name c.value h]
  · rw [if_neg hin, List.filter_append]
    simp [h]

theorem nameIn_setCol_self (r : Row) (c : Col) :
    nameIn c.name (setCol r c) = true := by
  unfold setCol
  by_cases hin : nameIn c.name r = true
  · rw [if_pos hin, nameIn_map_set]
    exact hin
  · rw [if_neg hin]
    simp [nameIn, List.any_append]

theorem nameIn_setCol_mono (r : Row) (c : Col) (n : String)
    (h : nameIn n r = true) :
    nameIn n (setCol r c) = true := by
  unfold setCol
  by_cases hin : nameIn c.name r = true
  · rw [if_pos hin, nameIn_map_set]
    exact h
  · rw [if_neg hin]
    simp [nameIn, List.any_append]
    simp [nameIn] at h
    exact Or.inl h

theorem setCol_idem (r : Row) (c : Col) :
    setCol (setCol r c) c = setCol r c := by
  by_cases hin : nameIn c.name r = true
  · have h1 : setCol r c = r.map (fun p => if c.name == p.1 then (p.1, c.value) else p) := by
      rw [setCol, if_pos hin]
    rw [h1, setCol, if_pos (by rw [nameIn_map_set]; exact hin), List.map_map]
    apply List.map_congr_left
    intro p hp
    by_cases hc : (c.name == p.1) = true
    · simp [Function.comp, hc]
    · simp [Function.comp, hc]
  · have hin' : nameIn c.name r = false := by
      rcases Bool.eq_false_or_eq_true (nameIn c.name r) with hb | hb
      · exact absurd hb hin
      · exact hb
    have h1 : setCol r c = r ++ [(c.name, c.value)] := by
      rw [setCol, if_neg hin]
    rw [h1, setCol, if_pos (by simp [nameIn, List.any_append]), List.map_append,
      map_set_id_of_not_in c.name c.value r hin']
    simp

theorem setCol_comm (r : Row) (c d : Col) (hc : nameIn c.name r = true)
    (hne : (c.name == d.name) = false) :
    setCol (setCol r d) c = setCol (setCol r c) d := by
  have hdc : (d.name == c.name) = false := by
    cases hb : (d.name == c.name) with
    | false => rfl
    | true =>
      have : d.name = c.name := by simpa using hb
      rw [this] at hne
      simp at hne
  by_cases hd : nameIn d.name r = true
  · have h1 : setCol r d = r.map (fun p => if d.name == p.1 then (p.1, d.value) else p) := by
      rw [setCol, if_pos hd]
    have h2 : setCol r c = r.map (fun p => if c.name == p.1 then (p.1, c.value) else p) := by
      rw [setCol, if_pos hc]
    rw [h1, h2, setCol, if_pos (by rw [nameIn_map_set]; exact hc),
      setCol, if_pos (by rw [nameIn_map_set]; exact hd), List.map_map, List.map_map]
    apply List.map_congr_left
    intro p hp
    obtain ⟨pk, pv⟩ := p
    by_cases hcp : (c.name == pk) = true
    · have : (d.name == pk) = false := by
        have h1' : c.name = pk := by simpa using hcp
        rw [← h1']
        exact hdc
      simp [Function.comp, hcp, this]
    · by_cases hdp : (d.name == pk) = true
      · simp [Function.comp, hcp, hdp]
      · simp [Function.comp, hcp, hdp]
  · have hd' : nameIn d.name r = false := by
      rcases Bool.eq_false_or_eq_true (nameIn d.name r) with hb | hb
      · exact absurd hb hd
      · exact hb
    have h1 : setCol r d = r ++ [(d.name, d.value)] := by
      rw [setCol, if_neg hd]
    have h2 : setCol r c = r.map (fun p => if c.name == p.1 then (p.1, c.value) else p) := by
      rw [setCol, if_pos hc]
    rw [h1, h2, setCol, if_pos (by simp [nameIn, List.any_append]; simp [nameIn] at hc; exact Or.inl hc),
      setCol, if_neg (by rw [nameIn_map_set]; exact fun hh => absurd hh (by simp [hd'])),
      List.map_append]
    simp only [List.map_cons, List.map_nil]
    rw [if_neg (by simp [hne])]

theorem applyCols_setCol_comm (c : Col) :
    ∀ (cols : List Col) (r : Row), nameIn c.name r = true →
      (∀ d ∈ cols, (c.name == d.name) = false) →
      setCol (applyCols cols r) c = applyCols cols (setCol r c) := by
  intro cols
  induction cols with
  | nil => intro r hc hnin; rfl
  | cons d ds ih =>
    intro r hc hnin
    have hstep : applyCols (d :: ds) r = applyCols ds (setCol r d) := rfl
    rw [hstep, ih (setCol r d) (nameIn_setCol_mono r d c.name hc)
      (fun x hx => hnin x (List.mem_cons_of_mem d hx)),
      setCol_comm r c d hc (hnin d (List.mem_cons_self d ds))]
    rfl

theorem applyCols_idem :
    ∀ (cols : List Col) (r : Row), (cols.map (·.name)).Nodup →
      applyCols cols (applyCols cols r) = applyCols cols r := by
  intro cols
  induction cols with
  | nil => intro r h; rfl
  | cons c cs ih =>
    intro r h
    rw [List.map_cons, List.nodup_cons] at h
    obtain ⟨hnotin, hnd⟩ := h
    have hnin : ∀ d ∈ cs, (c.name == d.name) = false := by
      intro d hd
      cases hb : (c.name == d.name) with
      | false => rfl
      | true =>
        have : c.name = d.name := by simpa using hb
        exact absurd (this ▸ List.mem_map_of_mem (·.name) hd) hnotin
    have hstep : ∀ x, applyCols (c :: cs) x = applyCols cs (setCol x c) := fun _ => rfl
    rw [hstep, hstep, applyCols_setCol_comm c cs (setCol r c)
      (nameIn_setCol_self r c) hnin, setCol_idem, ih (setCol r c) hnd]

theorem lookup_applyCols_not_mem (n : String) :
    ∀ (cols : List Col) (r : Row),
      (∀ d ∈ cols, (n == d.name) = false) →
      lookupCol (applyCols cols r) n = lookupCol r n := by
  intro cols
  induction cols with
  | nil => intro r h; rfl
  | cons d ds ih =>
    intro r h
    have hstep : applyCols (d :: ds) r = applyCols ds (setCol r d) := rfl
    rw [hstep, ih (setCol r d) (fun x hx => h x (List.mem_cons_of_mem d hx)),
      lookupCol_setCol_ne r d n (h d (List.mem_cons_self d ds))]

theorem lookup_applyCols_mem :
    ∀ (cols : List Col) (r : Row) (c : Col), c ∈ cols →
      (cols.map (·.name)).Nodup →
      lookupCol (applyCols cols r) c.name = some c.value := by
  intro cols
  induction cols with
  | nil => intro r c hc; cases hc
  | cons d ds ih =>
    intro r c hc hnd
    rw [List.map_cons, List.nodup_cons] at hnd
    obtain ⟨hnotin, hnd⟩ := hnd
    have hstep : applyCols (d :: ds) r = applyCols ds (setCol r d) := rfl
    rcases List.mem_cons.mp hc with rfl | hc
    · have hnin : ∀ x ∈ ds, (c.name == x.name) = false := by
        intro x hx
        cases hb : (c.name == x.name) with
        | false => rfl
        | true =>
          have : c.name = x.name := by simpa using hb
          exact absurd (this ▸ List.mem_map_of_mem (·.name) hx) hnotin
      rw [hstep, lookup_applyCols_not_mem c.name ds (setCol r c) hnin]
      exact lookupCol_setCol_self r c
    · rw [hstep]
      exact ih (setCol r d) c hc hnd

theorem getVals_applyCols_not_mem (n : String) :
    ∀ (cols : List Col) (r : Row),
      (∀ d ∈ cols, (n == d.name) = false) →
      getVals n (applyCols cols r) = getVals n r := by
  intro cols
  induction cols with
  | nil => intro r h; rfl
  | cons d ds ih =>
    intro r h
    have hstep : applyCols (d :: ds) r = applyCols ds (setCol r d) := rfl
    rw [hstep, ih (setCol r d) (fun x hx => h x (List.mem_cons_of_mem d hx)),
      getVals_setCol_ne r d n (h d (List.mem_cons_self d ds))]

/-! ## The password-changed reducer updates exactly the stale rows (C10) -/

/-- C10: `reducePasswordChanged` produces an update whose application maps
each session row independently: a row whose `user_id` equals the event's
aggregate ID and whose `password_checked_at` is a timestamp strictly before
the event's creation date gets exactly its `password_checked_at` column set
to NULL (every other column keeps all its values); every other row is
returned unchanged. -/
theorem reducePasswordChanged_scoped_update (e : HumanPasswordChangedEvent) (t : Table) :
    reducePasswordChanged (.passwordChanged e) =
      .ok (.update pwChangedCols (pwChangedConds e)) ∧
    applyStatement (.update pwChangedCols (pwChangedConds e)) t =
      t.map (pwChangedRow e) ∧
    (∀ r : Row,
      lookupCol r SessionColumnUserID = some (.text e.aggregateID) →
      ∀ a, lookupCol r SessionColumnPasswordCheckedAt = some (.timestamp a) →
        a < e.creationDate →
        pwChangedRow e r = setCol r (NewCol SessionColumnPasswordCheckedAt ColValue.null) ∧
        lookupCol (pwChangedRow e r) SessionColumnPasswordCheckedAt = some ColValue.null ∧
        (∀ n, (n == SessionColumnPasswordCheckedAt) = false →
          getVals n (pwChangedRow e r) = getVals n r)) ∧
    (∀ r : Row,
      (lookupCol r SessionColumnUserID ≠ some (.text e.aggregateID) ∨
        ∀ a, lookupCol r SessionColumnPasswordCheckedAt = some (.timestamp a) →
          ¬ a < e.creationDate) →
      pwChangedRow e r = r) := by
  refine ⟨rfl, rfl, ?_, ?_⟩
  · intro r hu a hpw hlt
    have hall : (pwChangedConds e).all (condHolds r) = true := by
      simp only [pwChangedConds, List.all_cons, List.all_nil, Bool.and_true]
      rw [Bool.and_eq_true]
      constructor
      · exact decide_eq_true hu
      · simp only [condHolds, hpw]
        exact decide_eq_true hlt
    have h1 : pwChangedRow e r =
        setCol r (NewCol SessionColumnPasswordCheckedAt ColValue.null) := by
      rw [pwChangedRow, if_pos hall]
      rfl
    refine ⟨h1, ?_, ?_⟩
    · rw [h1]
      exact lookupCol_setCol_self r _
    · intro n hn
      rw [h1]
      exact getVals_setCol_ne r _ n hn
  · intro r hdisj
    rw [pwChangedRow, if_neg ?_]
    intro hall
    simp only [pwChangedConds, List.all_cons, List.all_nil, Bool.and_true,
      Bool.and_eq_true] at hall
    obtain ⟨h1, h2⟩ := hall
    have h1' : lookupCol r SessionColumnUserID = some (.text e.aggregateID) := by
      simpa [condHolds] using h1
    rcases hdisj with hne | hlt
    · exact hne h1'
    · simp only [condHolds] at h2
      cases hl : lookupCol r SessionColumnPasswordCheckedAt with
      | none =>
        rw [hl] at h2
        simp at h2
      | some val =>
        rw [hl] at h2
        cases val with
        | text s => simp at h2
        | timestamp a =>
          simp only [decide_eq_true_eq] at h2
          exact hlt a hl h2
        | num nn => simp at h2
        | textArray l => simp at h2
        | null => simp at h2

/-- Witness for C10: a session of user `u1` last password-checked at time 3
has that timestamp nulled by a password change at time 5. -/
theorem reducePasswordChanged_scoped_update_witness :
    lookupCol (pwChangedRow pwEvt0 sessRow0) SessionColumnPasswordCheckedAt =
      some ColValue.null ∧
    getVals SessionColumnUserID (pwChangedRow pwEvt0 sessRow0) =
      getVals SessionColumnUserID sessRow0 := by
  have h := (reducePasswordChanged_scoped_update pwEvt0 [sessRow0]).2.2.1 sessRow0
    rfl 3 rfl (by decide)
  exact ⟨h.2.1, h.2.2 SessionColumnUserID rfl⟩

/-! ## Idempotence of the execution-set upsert (C6) -/

theorem execSet_filter (e : ExecSetEvent) :
    (execSetColumns e).filter (fun c => !c.onlyOnInsert) =
      [NewCol ExecutionInstanceIDCol (.text e.instanceID),
       NewCol ExecutionResourceOwnerCol (.text e.resourceOwner),
       NewCol ExecutionIDCol (.text e.aggregateID),
       NewCol ExecutionChangeDateCol (.timestamp e.creationDate),
       NewCol ExecutionSequenceCol (.num e.sequence),
       NewCol ExecutionTargetsCol (.textArray e.targets),
       NewCol ExecutionIncludesCol (.textArray e.includes)] := rfl

theorem execSet_take3 (e : ExecSetEvent) :
    (execSetColumns e).take 3 =
      [NewCol ExecutionInstanceIDCol (.text e.instanceID),
       NewCol ExecutionResourceOwnerCol (.text e.resourceOwner),
       NewCol ExecutionIDCol (.text e.aggregateID)] := rfl

theorem execSet_names_nodup (e : ExecSetEvent) :
    (((execSetColumns e).filter (fun c => !c.onlyOnInsert)).map (·.name)).Nodup := by
  have h : (((execSetColumns e).filter (fun c => !c.onlyOnInsert)).map (·.name)) =
      [ExecutionInstanceIDCol, ExecutionResourceOwnerCol, ExecutionIDCol,
       ExecutionChangeDateCol, ExecutionSequenceCol, ExecutionTargetsCol,
       ExecutionIncludesCol] := rfl
  rw [h]
  decide

theorem execSet_updateRow_idem (e : ExecSetEvent) (r : Row) :
    updateRow (execSetColumns e) (updateRow (execSetColumns e) r) =
      updateRow (execSetColumns e) r := by
  unfold updateRow
  exact applyCols_idem _ r (execSet_names_nodup e)

theorem execSet_rowMatches_updateRow (e : ExecSetEvent) (r : Row) :
    rowMatches ((execSetColumns e).take 3) (updateRow (execSetColumns e) r) = true := by
  rw [execSet_take3]
  simp only [rowMatches, List.all_cons, List.all_nil, Bool.and_true, Bool.and_eq_true]
  refine ⟨?_, ?_, ?_⟩
  · apply decide_eq_true
    exact lookup_applyCols_mem _ r _
      (by rw [execSet_filter]; exact List.mem_cons_self _ _) (execSet_names_nodup e)
  · apply decide_eq_true
    exact lookup_applyCols_mem _ r _
      (by rw [execSet_filter]; simp) (execSet_names_nodup e)
  · apply decide_eq_true
    exact lookup_applyCols_mem _ r _
      (by rw [execSet_filter]; simp) (execSet_names_nodup e)

theorem execSet_rowMatches_insertRow (e : ExecSetEvent) :
    rowMatches ((execSetColumns e).take 3) (insertRowOf (execSetColumns e)) = true := by
  rw [execSet_take3]
  simp only [rowMatches, List.all_cons, List.all_nil, Bool.and_true, Bool.and_eq_true]
  exact ⟨decide_eq_true rfl, decide_eq_true rfl, decide_eq_true rfl⟩

/-- C6: the statement produced by `reduceExecutionSet` is the upsert keyed by
`(instance_id, resource_owner, id)` with `creation_date` marked
set-only-on-insert; applying it twice to any execution table equals
applying it once, and its update path never changes any `creation_date`
value of an existing row. -/
theorem executionSet_upsert_idempotent (e : ExecSetEvent) (t : Table) :
    reduceExecutionSet (.execSet e) =
      .ok (.upsert ((execSetColumns e).take 3) (execSetColumns e)) ∧
    applyStatement (.upsert ((execSetColumns e).take 3) (execSetColumns e))
        (applyStatement (.upsert ((execSetColumns e).take 3) (execSetColumns e)) t) =
      applyStatement (.upsert ((execSetColumns e).take 3) (execSetColumns e)) t ∧
    ∀ r : Row, getVals ExecutionCreationDateCol (updateRow (execSetColumns e) r) =
      getVals ExecutionCreationDateCol r := by
  refine ⟨rfl, ?_, ?_⟩
  · show applyUpsert ((execSetColumns e).take 3) (execSetColumns e)
        (applyUpsert ((execSetColumns e).take 3) (execSetColumns e) t) =
      applyUpsert ((execSetColumns e).take 3) (execSetColumns e) t
    by_cases hany : t.any (rowMatches ((execSetColumns e).take 3)) = true
    · have ht1 : applyUpsert ((execSetColumns e).take 3) (execSetColumns e) t =
          t.map (fun r => if rowMatches ((execSetColumns e).take 3) r then
            updateRow (execSetColumns e) r else r) := by
        rw [applyUpsert, if_pos hany]
      have hany1 : (t.map (fun r => if rowMatches ((execSetColumns e).take 3) r then
          updateRow (execSetColumns e) r else r)).any
            (rowMatches ((execSetColumns e).take 3)) = true := by
        obtain ⟨r, hr, hm⟩ := List.any_eq_true.mp hany
        apply List.any_eq_true.mpr
        refine ⟨if rowMatches ((execSetColumns e).take 3) r then
          updateRow (execSetColumns e) r else r, List.mem_map_of_mem _ hr, ?_⟩
        rw [if_pos hm]
        exact execSet_rowMatches_updateRow e r
      rw [ht1, applyUpsert, if_pos hany1, List.map_map]
      apply List.map_congr_left
      intro r hr
      simp only [Function.comp]
      by_cases hm : rowMatches ((execSetColumns e).take 3) r = true
      · rw [if_pos hm, if_pos (execSet_rowMatches_updateRow e r),
          execSet_updateRow_idem]
      · rw [if_neg hm, if_neg hm]
    · have ht1 : applyUpsert ((execSetColumns e).take 3) (execSetColumns e) t =
          t ++ [insertRowOf (execSetColumns e)] := by
        rw [applyUpsert, if_neg hany]
      have hanyf : t.any (rowMatches ((execSetColumns e).take 3)) = false := by
        rcases Bool.eq_false_or_eq_true
            (t.any (rowMatches ((execSetColumns e).take 3))) with hb | hb
        · exact absurd hb hany
        · exact hb
      have hany2 : (t ++ [insertRowOf (execSetColumns e)]).any
          (rowMatches ((execSetColumns e).take 3)) = true := by
        rw [List.any_append, hanyf]
        simp [execSet_rowMatches_insertRow e]
      rw [ht1, applyUpsert, if_pos hany2, List.map_append]
      have hmt : t.map (fun r => if rowMatches ((execSetColumns e).take 3) r then
          updateRow (execSetColumns e) r else r) = t := by
        have hid : ∀ r ∈ t, (if rowMatches ((execSetColumns e).take 3) r then
            updateRow (execSetColumns e) r else r) = r := by
          intro r hr
          rw [if_neg ?_]
          rw [List.any_eq_false] at hanyf
          simp [hanyf r hr]
        rw [List.map_congr_left hid]
        simp
      have hm1 : [insertRowOf (execSetColumns e)].map
          (fun r => if rowMatches ((execSetColumns e).take 3) r then
            updateRow (execSetColumns e) r else r) = [insertRowOf (execSetColumns e)] := by
        simp only [List.map_cons, List.map_nil]
        rw [if_pos (execSet_rowMatches_insertRow e)]
        rfl
      rw [hmt, hm1]
  · intro r
    show getVals ExecutionCreationDateCol
        (applyCols ((execSetColumns e).filter (fun c => !c.onlyOnInsert)) r) =
      getVals ExecutionCreationDateCol r
    apply getVals_applyCols_not_mem
    intro d hd
    rw [execSet_filter] at hd
    simp only [List.mem_cons, List.not_mem_nil, or_false] at hd
    rcases hd with rfl | rfl | rfl | rfl | rfl | rfl | rfl <;> rfl

/-- Witness for C6: applying the upsert of a concrete execution event twice
to a table that already holds the row (created at time 2) equals applying
it once, and the stored `creation_date` stays 2 while `change_date` moves
to 10. -/
theorem executionSet_upsert_idempotent_witness :
    applyStatement (.upsert ((execSetColumns execEvt0).take 3) (execSetColumns execEvt0))
        (applyStatement (.upsert ((execSetColumns execEvt0).take 3)
          (execSetColumns execEvt0))
          [[("instance_id", ColValue.text "i1"), ("resource_owner", ColValue.text "o1"),
            ("id", ColValue.text "exec1"), ("creation_date", ColValue.timestamp 2),
            ("change_date", ColValue.timestamp 2)]]) =
      applyStatement (.upsert ((execSetColumns execEvt0).take 3) (execSetColumns execEvt0))
        [[("instance_id", ColValue.text "i1"), ("resource_owner", ColValue.text "o1"),
          ("id", ColValue.text "exec1"), ("creation_date", ColValue.timestamp 2),
          ("change_date", ColValue.timestamp 2)]] ∧
    getVals ExecutionCreationDateCol
      (updateRow (execSetColumns execEvt0)
        [("creation_date", ColValue.timestamp 2), ("change_date", ColValue.timestamp 2)]) =
      [ColValue.timestamp 2] := by
  constructor
  · exact (executionSet_upsert_idempotent execEvt0
      [[("instance_id", ColValue.text "i1"), ("resource_owner", ColValue.text "o1"),
        ("id", ColValue.text "exec1"), ("creation_date", ColValue.timestamp 2),
        ("change_date", ColValue.timestamp 2)]]).2.1
  · exact ((executionSet_upsert_idempotent execEvt0 []).2.2
      [("creation_date", ColValue.timestamp 2), ("change_date", ColValue.timestamp 2)]).trans
      (by decide)

end Zitadel
